import Mathlib

/-!
Verification development for the Datadog configuration-template schema
generator (`util/generate_datadog_schema.py`).

Lines of the input document are modelled as `List Char`.  Python string
operations are translated as follows:

* `str.strip` / `lstrip` / `rstrip` → `stripChars` / `lstripChars` /
  `rstripChars` over `Char.isWhitespace` (Python also strips a few rarer
  whitespace code points; the documents at hand only use the common ones);
* the regex character class `\w` → `isWordChar` (ASCII letters, digits and
  underscore; Python's unicode word characters beyond ASCII are not used by
  the templates);
* `re.match` of the two directive patterns is translated operationally:
  both patterns are anchored at the start only, so matching is prefix
  matching, and the backtracking behaviour of `(\w+)`, `([^-]+)` and the
  optional `(?: - default: (.+))?` group reduces to the deterministic
  scans implemented below (maximal word-character run, split at the first
  hyphen, greedy rest-of-line default);
* `int(...)` / `float(...)` literal acceptance is modelled for ASCII
  literals with underscore digit separators; the `inf`/`nan` names are
  omitted because `float` is only attempted when the text contains a dot.
-/

namespace DDSchema

/-- ASCII word character, modelling the regex character class for word
characters (letters, digits, underscore). -/
def isWordChar (c : Char) : Bool := c.isAlphanum || c == '_'

/-- Python `str.lstrip()`. -/
def lstripChars (l : List Char) : List Char := l.dropWhile Char.isWhitespace

/-- Python `str.rstrip()`. -/
def rstripChars (l : List Char) : List Char :=
  (l.reverse.dropWhile Char.isWhitespace).reverse

/-- Python `str.strip()`: drop leading and trailing whitespace. -/
def stripChars (l : List Char) : List Char :=
  ((l.dropWhile Char.isWhitespace).reverse.dropWhile Char.isWhitespace).reverse

/-- Python `str.lower()` (ASCII case folding). -/
def lowerList (l : List Char) : List Char := l.map Char.toLower

/-- If `p` is a prefix of `s`, return the rest of `s` after `p`. -/
def dropPrefixQ : List Char → List Char → Option (List Char)
  | [], s => some s
  | _ :: _, [] => none
  | a :: p, b :: s => if a = b then dropPrefixQ p s else none

/-- Python `str.startswith(p)`. -/
def startsWithQ (p s : List Char) : Bool := (dropPrefixQ p s).isSome

/-- Split a string at the first character satisfying `q`; the matched
character is consumed.  `none` when no character satisfies `q`. -/
def splitAtPred (q : Char → Bool) : List Char → Option (List Char × List Char)
  | [] => none
  | c :: rest =>
    if q c then some ([], rest)
    else
      match splitAtPred q rest with
      | some (a, b) => some (c :: a, b)
      | none => none

/-- Split a string at the first occurrence of `pat` as a contiguous
substring; the occurrence is consumed. -/
def splitAtSubQ (pat : List Char) : List Char → Option (List Char × List Char)
  | [] => (dropPrefixQ pat []).map (fun r => ([], r))
  | c :: rest =>
    match dropPrefixQ pat (c :: rest) with
    | some r => some ([], r)
    | none => (splitAtSubQ pat rest).map (fun p => (c :: p.1, p.2))

/-- Python `pat in s` (contiguous substring test). -/
def containsSub (pat s : List Char) : Bool := (splitAtSubQ pat s).isSome

/-- The structured fields extracted from one `## @param` comment line by
`parse_param_comment` (`name`, `type`, `required`, `default`; the
`description` entry is filled in later by the driver and is kept separate
here). -/
structure ParamInfo where
  name : List Char
  type : List Char
  required : Bool
  default : Option (List Char)
  deriving DecidableEq, Repr

/-- The optional `(?: - default: (.+))?` group of the parameter pattern,
applied to the text following the `optional`/`required` token, combined
with the subsequent `default_value.strip() if default_value else None`.
`(.+)` is greedy and `.` does not match a newline, so the captured text is
everything up to the first newline, and the group only matches when that
text is non-empty. -/
def parseDefaultClause (rest3 : List Char) : Option (List Char) :=
  match dropPrefixQ (" - default: ".toList) rest3 with
  | some d =>
    let d2 := d.takeWhile (fun c => !(c == '\n'))
    if d2 = [] then none else some (stripChars d2)
  | none => none

/-- `re.match` of `## @param (\w+) - ([^-]+) - (optional|required)
(?: - default: (.+))?` against an already-stripped line, together with the
construction of the result fields.  Backtracking of `(\w+)` is vacuous
(the run must be followed by a space), and `([^-]+) - ` can only match by
taking everything up to the first hyphen of the remainder, which must be
immediately surrounded by spaces. -/
def parse_param_core (s : List Char) : Option ParamInfo :=
  match dropPrefixQ ("## @param ".toList) s with
  | none => none
  | some s1 =>
    if s1.takeWhile isWordChar = [] then none
    else
      match dropPrefixQ (" - ".toList) (s1.dropWhile isWordChar) with
      | none => none
      | some rest1 =>
        match splitAtPred (fun c => c == '-') rest1 with
        | none => none
        | some (pre, post) =>
          match pre.reverse with
          | ' ' :: t1 =>
            if t1 = [] then none
            else
              match post with
              | ' ' :: rest2 =>
                match dropPrefixQ ("optional".toList) rest2 with
                | some rest3 =>
                  some { name := s1.takeWhile isWordChar
                         type := stripChars t1.reverse
                         required := false
                         default := parseDefaultClause rest3 }
                | none =>
                  match dropPrefixQ ("required".toList) rest2 with
                  | some rest3 =>
                    some { name := s1.takeWhile isWordChar
                           type := stripChars t1.reverse
                           required := true
                           default := parseDefaultClause rest3 }
                  | none => none
              | _ => none
          | _ => none

/-- `DatadogSchemaGenerator.parse_param_comment` (the comment is stripped
before the regex is applied). -/
def parse_param_comment (l : List Char) : Option ParamInfo :=
  parse_param_core (stripChars l)

/-- `re.match` of `## @param (\w+) - custom object - optional` against an
already-stripped line (prefix match: trailing text is ignored). -/
def parse_section_core (s : List Char) : Option (List Char) :=
  match dropPrefixQ ("## @param ".toList) s with
  | none => none
  | some s1 =>
    if s1.takeWhile isWordChar = [] then none
    else
      match dropPrefixQ (" - custom object - optional".toList)
          (s1.dropWhile isWordChar) with
      | some _ => some (s1.takeWhile isWordChar)
      | none => none

/-- `DatadogSchemaGenerator.parse_section_comment`. -/
def parse_section_comment (l : List Char) : Option (List Char) :=
  parse_section_core (stripChars l)

/-- `DatadogSchemaGenerator.yaml_type_to_json_type`: fixed lookup table over
the lower-cased, stripped type text, defaulting to `"string"`. -/
def yaml_type_to_json_type (t : List Char) : List Char :=
  let k := stripChars (lowerList t)
  if k = "string".toList then "string".toList
  else if k = "boolean".toList then "boolean".toList
  else if k = "integer".toList then "integer".toList
  else if k = "number".toList then "number".toList
  else if k = "list of strings".toList then "array".toList
  else if k = "list of key:value elements".toList then "array".toList
  else if k = "list of custom objects".toList then "array".toList
  else if k = "space separated list of strings".toList then "array".toList
  else if k = "list of key:value strings".toList then "object".toList
  else if k = "custom object".toList then "object".toList
  else if k = "duration".toList then "string".toList
  else if k = "map".toList then "object".toList
  else "string".toList

/-- `DatadogSchemaGenerator.get_array_items_schema`.  In the source the
item schema is always a one-entry mapping from the key type to an item
type string t; only that string is modelled. -/
def get_array_items_schema (t : List Char) : List Char :=
  let k := stripChars (lowerList t)
  if containsSub ("strings".toList) k then "string".toList
  else if containsSub ("key:value".toList) k then "string".toList
  else if containsSub ("custom objects".toList) k then "object".toList
  else "string".toList

/-- Digit run continuation allowing single underscores between digits. -/
def digitsTail : List Char → Bool
  | [] => true
  | '_' :: rest =>
    match rest with
    | [] => false
    | c :: rest2 => c.isDigit && digitsTail rest2
  | c :: rest => c.isDigit && digitsTail rest

/-- Non-empty digit run allowing single underscores between digits. -/
def digitsU (l : List Char) : Bool :=
  match l with
  | [] => false
  | c :: rest => c.isDigit && digitsTail rest

/-- Decimal value of a digit run (underscores are skipped). -/
def digitsVal (l : List Char) : Nat :=
  l.foldl (fun acc c => if c.isDigit then acc * 10 + (c.toNat - '0'.toNat) else acc) 0

/-- Python `int(s)` on an already-stripped ASCII literal: optional sign and
a non-empty digit run with underscore separators. -/
def pyIntParse (l : List Char) : Option Int :=
  match l with
  | '+' :: rest => if digitsU rest then some (digitsVal rest : Int) else none
  | '-' :: rest => if digitsU rest then some (-(digitsVal rest : Int)) else none
  | _ => if digitsU l then some (digitsVal l : Int) else none

/-- Exponent part of a float literal: optional sign and a digit run. -/
def expPartOk : List Char → Bool
  | '+' :: r => digitsU r
  | '-' :: r => digitsU r
  | r => digitsU r

/-- Mantissa of a float literal containing a dot: integer part and
fraction part around the first dot, each optionally empty but not both,
and no second dot. -/
def mantissaOk (l : List Char) : Bool :=
  match splitAtPred (fun c => c == '.') l with
  | some (ip, fp) =>
    (ip = [] || digitsU ip) && (fp = [] || digitsU fp) &&
      !(ip = [] && fp = []) && !(fp.contains '.')
  | none => digitsU l

/-- Python `float(s)` acceptance on an already-stripped ASCII literal
(only reached when `s` contains a dot, so `inf`/`nan` never arise). -/
def pyFloatOk (l : List Char) : Bool :=
  let l1 :=
    match l with
    | '+' :: r => r
    | '-' :: r => r
    | _ => l
  match splitAtPred (fun c => c == 'e' || c == 'E') l1 with
  | some (m, ex) => mantissaOk m && expPartOk ex
  | none => mantissaOk l1

/-- JSON values that can appear as a `default` in an emitted node.  Float
defaults are kept as their literal text (`jfloatLit`): no claim inspects
the numeric value of a float default, and the literal is a faithful
injective image of the accepted text. -/
inductive JsonValue where
  | jbool (b : Bool)
  | jint (n : Int)
  | jfloatLit (s : List Char)
  | jstr (s : List Char)
  | jarrEmpty
  deriving DecidableEq, Repr

/-- The quoted-string, placeholder and literal-string fallback branches of
`parse_default_value` (reached when the boolean and numeric branches have
failed). -/
def quotedOrSpecial (s : List Char) : Option JsonValue :=
  if startsWithQ ("\"".toList) s && (s.reverse.head? = some '"') then
    some (.jstr ((s.drop 1).dropLast))
  else if startsWithQ ("'".toList) s && (s.reverse.head? = some '\'') then
    some (.jstr ((s.drop 1).dropLast))
  else if s = "<HOSTNAME_NAME>".toList then none
  else if s = "<ENDPOINT>:<PORT>".toList then none
  else if s = "<TAG_KEY>:<TAG_VALUE>".toList then none
  else some (.jstr s)

/-- `DatadogSchemaGenerator.parse_default_value`.  Rule order as in the
source: empty → none; `true`/`false` case-insensitively → boolean; text
containing a dot → `float(...)` else `int(...)`, falling through on
`ValueError`; matching double or single quotes → unwrap; one of the three
placeholder tokens → none; otherwise the literal string. -/
def parse_default_value (s0 : List Char) : Option JsonValue :=
  if s0 = [] then none
  else
    let s := stripChars s0
    if lowerList s = "true".toList then some (.jbool true)
    else if lowerList s = "false".toList then some (.jbool false)
    else if containsSub (".".toList) s then
      if pyFloatOk s then some (.jfloatLit s) else quotedOrSpecial s
    else
      match pyIntParse s with
      | some n => some (.jint n)
      | none => quotedOrSpecial s

/-- One property node of the output schema:
type, description and the optional default, items and
additionalProperties fields.  `items`
holds the single type string of the item schema; `addProps`
records whether `additionalProperties: true` was set. -/
structure PropNode where
  type : List Char
  description : List Char
  default : Option JsonValue
  items : Option (List Char)
  addProps : Bool
  deriving DecidableEq, Repr

/-- Lines 299-321 of `parse_template_file`: build the property schema for
one parsed parameter (type conversion, default coercion, array items and
empty-list default, `additionalProperties` for objects). -/
def build_property_schema (info : ParamInfo) (desc : List Char) : PropNode :=
  let jt := yaml_type_to_json_type info.type
  let d0 : Option JsonValue :=
    match info.default with
    | none => none
    | some ds => parse_default_value ds
  { type := jt
    description := desc
    default := if jt = "array".toList then some (d0.getD JsonValue.jarrEmpty) else d0
    items := if jt = "array".toList then some (get_array_items_schema info.type) else none
    addProps := jt == "object".toList }

/-- `len(original_line) - len(original_line.lstrip())` where
`original_line = lines[i].rstrip()`: number of leading whitespace
characters of the right-stripped line. -/
def indentOf (raw : List Char) : Nat :=
  (rstripChars raw).length - (lstripChars (rstripChars raw)).length

/-- Loop body of `extract_description`: collect the stripped pieces of the
contiguous `##` comment block, stopping (without consuming) at the next
`## @param` or `## @env` directive, skipping pieces that are empty after
removing the marker. -/
def descPieces : List (List Char) → List (List Char)
  | [] => []
  | raw :: rest =>
    let l := stripChars raw
    if startsWithQ ("##".toList) l then
      if startsWithQ ("## @param".toList) l || startsWithQ ("## @env".toList) l then []
      else
        let d := stripChars (l.drop 2)
        if d = [] then descPieces rest else d :: descPieces rest
    else []

/-- Python `" ".join`. -/
def joinSpace : List (List Char) → List Char
  | [] => []
  | [x] => x
  | x :: rest => x ++ ' ' :: joinSpace rest

/-- `DatadogSchemaGenerator.extract_description lines start_idx`. -/
def extract_description (lines : List (List Char)) (i : Nat) : List Char :=
  joinSpace (descPieces (lines.drop (i + 1)))

/-- Scan of `find_parameter_line_indent`: the indent of the first
following line that is non-empty and starts with neither `##` nor the
template marker, or `0` when none exists.  (The source first skips the
contiguous `##` block and then scans with the same exclusions, which is
the same single scan.) -/
def fpliGo : List (List Char) → Nat
  | [] => 0
  | raw :: rest =>
    let l := stripChars raw
    if l = [] || startsWithQ ("##".toList) l || startsWithQ ("\x7b\x7b".toList) l then
      fpliGo rest
    else indentOf raw

/-- `DatadogSchemaGenerator.find_parameter_line_indent lines idx`. -/
def find_parameter_line_indent (lines : List (List Char)) (i : Nat) : Nat :=
  fpliGo (lines.drop (i + 1))

/-- `DatadogSchemaGenerator.determine_target_section`.  The Python
truthiness test `if current_section` also rejects an empty string, so an
empty current section resolves to root as well.  The `section_stack`
argument is accepted but never inspected, exactly as in the source. -/
def determine_target_section (currentSection : Option (List Char)) (paramIndent : Nat)
    (sectionStack : List (List Char)) : Option (List Char) :=
  if paramIndent = 0 then none
  else
    match currentSection with
    | some s => if s = [] then none else some s
    | none => none

/-- The classification of one raw line implicit in the branch structure of
`parse_template_file` (and reused by `find_section_context`): template
close (a template-marker line containing `end`), template open (any other
template-marker line),
section directive (`## @param` line containing `custom object` whose
section pattern matches), parameter directive (`## @param` line without
`custom object` whose parameter pattern matches), or anything else. -/
inductive Directive where
  | templateClose
  | templateOpen
  | sectionD (name : List Char)
  | paramD (info : ParamInfo)
  | other
  deriving DecidableEq, Repr

/-- Classify one raw line the way the driver's branch cascade does (the
line is stripped first, as in the source). -/
def classify (raw : List Char) : Directive :=
  if stripChars raw = [] then .other
  else if startsWithQ ("\x7b\x7b".toList) (stripChars raw) then
    if containsSub ("end".toList) (stripChars raw) then .templateClose
    else .templateOpen
  else if startsWithQ ("## @param".toList) (stripChars raw) then
    if containsSub ("custom object".toList) (stripChars raw) then
      match parse_section_comment (stripChars raw) with
      | some n => .sectionD n
      | none => .other
    else
      match parse_param_comment (stripChars raw) with
      | some info => .paramD info
      | none => .other
  else .other

/-- Backward scan of `find_section_context`, applied to the reversed list
of preceding lines: the first section directive wins, a template close
aborts the scan, and every other line is skipped. -/
def scanBack : List (List Char) → Option (List Char)
  | [] => none
  | l :: rest =>
    match classify l with
    | .sectionD n => some n
    | .templateClose => none
    | _ => scanBack rest

/-- `DatadogSchemaGenerator.find_section_context lines param_idx`: walk
the lines before `param_idx` in reverse. -/
def find_section_context (lines : List (List Char)) (i : Nat) : Option (List Char) :=
  scanBack (lines.take i).reverse

/-- A section node of the output schema: an object node with its own
nested properties, description and optional required list. -/
structure SectionNode where
  props : List (List Char × PropNode)
  required : Option (List (List Char))
  description : List Char
  deriving DecidableEq, Repr

/-- The fresh section node created when a section directive is seen. -/
def mkSectionNode (name : List Char) : SectionNode :=
  { props := [], required := none, description := "Configuration for ".toList ++ name }

/-- A root `properties` entry is either a parameter node or a section
node (a later assignment with the same key can replace one by the
other, as in a Python dict). -/
inductive SchemaEntry where
  | param (node : PropNode)
  | sect (node : SectionNode)
  deriving DecidableEq, Repr

/-- Python dict assignment on an association list: replace in place if the
key exists, else append. -/
def assocSet {α : Type} (l : List (List Char × α)) (k : List Char) (v : α) :
    List (List Char × α) :=
  match l with
  | [] => [(k, v)]
  | (k0, v0) :: t => if k0 = k then (k0, v) :: t else (k0, v0) :: assocSet t k v

/-- Python dict lookup on an association list. -/
def assocGet {α : Type} (l : List (List Char × α)) (k : List Char) : Option α :=
  match l with
  | [] => none
  | (k0, v0) :: t => if k0 = k then some v0 else assocGet t k

/-- The mutable output document: its `properties` mapping and optional
root `required` list.  (The constant header fields `$schema`, `title`,
`type: "object"`, `additionalProperties: false` never change and are not
modelled.) -/
structure Schema where
  properties : List (List Char × SchemaEntry)
  required : Option (List (List Char))
  deriving DecidableEq, Repr

/-- The driver state of `parse_template_file`: `current_section`,
`section_stack` (top of the Python list, i.e. its last element, is the
head here) and the schema under construction. -/
structure PTState where
  currentSection : Option (List Char)
  sectionStack : List (List Char)
  schema : Schema
  deriving DecidableEq, Repr

/-- Template-close handling: pop the stack if non-empty; the new current
section is the new top or none. -/
def popClose (st : PTState) : PTState :=
  match st.sectionStack with
  | [] => st
  | _ :: rest => { st with sectionStack := rest, currentSection := rest.head? }

/-- Section-directive handling: set the current section, push it, and
(re)create its empty object node in the root properties. -/
def openSection (st : PTState) (name : List Char) : PTState :=
  { currentSection := some name
    sectionStack := name :: st.sectionStack
    schema := { st.schema with
      properties := assocSet st.schema.properties name (.sect (mkSectionNode name)) } }

/-- Parameter-directive handling (lines 270-337 of the source): extract
the description, resolve the indent, resolve the target section (with the
backward-scan fallback for indented parameters), build the node, insert it
into the resolved `properties` mapping, and append to the matching
`required` list when the parameter is required.  `none` models the
`KeyError` raised when the resolved target section is missing from the
root properties or has been overwritten by a plain parameter node. -/
def handleParam (lines : List (List Char)) (i : Nat) (st : PTState)
    (info : ParamInfo) : Option PTState :=
  let desc := extract_description lines i
  let pIndent := find_parameter_line_indent lines i
  let t0 := determine_target_section st.currentSection pIndent st.sectionStack
  let target :=
    match t0 with
    | some t => some t
    | none => if 0 < pIndent then find_section_context lines i else none
  let node := build_property_schema info desc
  match target with
  | none =>
    some { st with schema :=
      { properties := assocSet st.schema.properties info.name (.param node)
        required :=
          if info.required then some (st.schema.required.getD [] ++ [info.name])
          else st.schema.required } }
  | some t =>
    match assocGet st.schema.properties t with
    | some (.sect sn) =>
      some { st with schema :=
        { st.schema with properties := assocSet st.schema.properties t (.sect
            { sn with
              props := assocSet sn.props info.name node
              required :=
                if info.required then some (sn.required.getD [] ++ [info.name])
                else sn.required }) } }
    | _ => none

/-- One iteration of the driver loop at index `i` (every iteration of the
source loop advances `i` by exactly one, whichever branch fires). -/
def ptStep (lines : List (List Char)) (i : Nat) (st : PTState) : Option PTState :=
  match classify (lines.getD i []) with
  | .other => some st
  | .templateOpen => some st
  | .templateClose => some (popClose st)
  | .sectionD name => some (openSection st name)
  | .paramD info => handleParam lines i st info

/-- The driver loop, fuelled: the source loop runs while `i < len(lines)`
and increments `i` once per iteration, so `lines.length` fuel from `i = 0`
reproduces it exactly. -/
def ptGo (lines : List (List Char)) : Nat → Nat → PTState → Option PTState
  | 0, _, st => some st
  | fuel + 1, i, st =>
    if i < lines.length then
      match ptStep lines i st with
      | none => none
      | some st2 => ptGo lines fuel (i + 1) st2
    else some st

/-- The initial driver state: no section open, empty stack, empty schema. -/
def initState : PTState := { currentSection := none, sectionStack := [], schema := { properties := [], required := none } }

/-- `DatadogSchemaGenerator.parse_template_file`, as a function from the
line list to the resulting schema (`none` models an uncaught exception). -/
def parse_template_file (lines : List (List Char)) : Option Schema :=
  (ptGo lines lines.length 0 initState).map PTState.schema

/-! ### Specification-side definitions

The following definitions are not translations of the source; they state,
in executable form, the grammar and the serialization that the
specification's sentences describe, so that the code's behaviour can be
compared against them. -/

/-- The `optional`/`required` token as written from the parsed flag. -/
def flagStr (b : Bool) : List Char :=
  if b then "required".toList else "optional".toList

/-- Spec-side: the re-serialization of the parsed fields
(name, rawType, required, rawDefault) back into the directive grammar
`## @param <name> - <rawType> - <optional|required>[ - default: <rawDefault>]`,
as used by the round-trip property. -/
def serializeParam (info : ParamInfo) : List Char :=
  "## @param ".toList ++ info.name ++ " - ".toList ++ info.type ++ " - ".toList ++
    flagStr info.required ++
    (match info.default with
     | none => []
     | some d => " - default: ".toList ++ d)

/-- Spec-side: the text accepted after the required/optional token by the
claimed grammar: nothing, or a literal ` - default: ` clause with the rest
of the line. -/
def specTailOk (tail : List Char) : Bool :=
  tail = [] || (dropPrefixQ (" - default: ".toList) tail).isSome

/-- Spec-side: the claimed ParameterDirective grammar
`## @param <identifier> - <type-text, no embedded ' - '> - (optional|required)[ - default: <rest-of-line>]`,
the whole line consumed.  The type text is everything between the first
` - ` separator and the flag token, so the line is split at its first
` - ` occurrence after the identifier. -/
def specParamGrammarB (line : List Char) : Bool :=
  match dropPrefixQ ("## @param ".toList) line with
  | none => false
  | some s1 =>
    if s1.takeWhile isWordChar = [] then false
    else
      match dropPrefixQ (" - ".toList) (s1.dropWhile isWordChar) with
      | none => false
      | some r =>
        match splitAtSubQ (" - ".toList) r with
        | none => false
        | some (typ, after) =>
          if typ = [] then false
          else
            match dropPrefixQ ("optional".toList) after with
            | some tail => specTailOk tail
            | none =>
              match dropPrefixQ ("required".toList) after with
              | some tail => specTailOk tail
              | none => false

/-- Whether the driver's classifier recognises the line as a parameter
directive. -/
def isClassifiedParam (l : List Char) : Bool :=
  match classify l with
  | .paramD _ => true
  | _ => false

/-- The decomposition of a stripped line accepted by the code's parameter
pattern: a maximal non-empty identifier of word characters, a non-empty
type text containing no hyphen character at all, one of the two flag
tokens, and an arbitrary (ignored or default-bearing) tail. -/
def paramShapeAt (s nm typ : List Char) (req : Bool) (tail : List Char) : Prop :=
  s = "## @param ".toList ++ nm ++ " - ".toList ++ typ ++ " - ".toList ++
        flagStr req ++ tail ∧
    nm ≠ [] ∧ (∀ c ∈ nm, isWordChar c = true) ∧ typ ≠ [] ∧ '-' ∉ typ

/-- A stripped line has the (amended) shape accepted by the code's
parameter pattern, for some decomposition. -/
def amendedParamShape (s : List Char) : Prop :=
  ∃ nm typ req tail, paramShapeAt s nm typ req tail

/-- The parameter carries no usable written default: either no `default:`
clause was written, or the written text coerces to the absent value. -/
def noUsableDefault (info : ParamInfo) : Prop :=
  ∀ d, info.default = some d → parse_default_value d = none

/-- The driver result has a root property with the given name. -/
def rootHasKey (r : Option Schema) (k : List Char) : Bool :=
  match r with
  | some s => (assocGet s.properties k).isSome
  | none => false

/-- A line the backward context scan skips: it is neither a section
directive nor a template close. -/
def scanNeutral (x : List Char) : Prop :=
  (∀ n, classify x ≠ .sectionD n) ∧ classify x ≠ .templateClose

/-- The driver result has a section of the given name with a property of
the given name inside it. -/
def sectionHasKey (r : Option Schema) (sec k : List Char) : Bool :=
  match r with
  | some s =>
    match assocGet s.properties sec with
    | some (.sect sn) => (assocGet sn.props k).isSome
    | _ => false
  | none => false

/-! ### Basic lemmas about the string scanners -/

theorem dropPrefixQ_some_iff {p s r : List Char} :
    dropPrefixQ p s = some r ↔ s = p ++ r := by
  induction p generalizing s with
  | nil => simp [dropPrefixQ]
  | cons a p ih =>
    cases s with
    | nil => simp [dropPrefixQ]
    | cons b s =>
      by_cases h : a = b
      · subst h
        simp [dropPrefixQ, ih]
      · simp only [dropPrefixQ, if_neg h]
        constructor
        · intro hh; exact absurd hh (by simp)
        · intro hh
          have hba : b = a := by injection hh
          exact absurd hba.symm h

theorem startsWithQ_iff {p s : List Char} :
    startsWithQ p s = true ↔ ∃ r, s = p ++ r := by
  simp [startsWithQ, Option.isSome_iff_exists, dropPrefixQ_some_iff]

theorem splitAtPred_some_iff {q : Char → Bool} {l a b : List Char} :
    splitAtPred q l = some (a, b) ↔
      (∀ x ∈ a, q x = false) ∧ ∃ c, q c = true ∧ l = a ++ c :: b := by
  induction l generalizing a with
  | nil =>
    simp only [splitAtPred]
    constructor
    · intro h; cases h
    · rintro ⟨-, c, -, h⟩; exact absurd h (by simp)
  | cons d t ih =>
    by_cases hq : q d
    · simp only [splitAtPred, if_pos hq]
      constructor
      · intro h
        obtain ⟨rfl, rfl⟩ : a = [] ∧ t = b := by
          constructor <;> · injection h with h2; injection h2 <;> simp_all
        exact ⟨by simp, d, hq, rfl⟩
      · rintro ⟨hall, c, hc, hl⟩
        cases a with
        | nil =>
          simp only [List.nil_append] at hl
          have h1 : d = c := by injection hl
          have h2 : t = b := by injection hl
          rw [h2]
        | cons a0 a' =>
          have h0 : d = a0 := by injection hl
          have := hall a0 (by simp)
          rw [← h0] at this
          rw [hq] at this
          cases this
    · simp only [splitAtPred, if_neg hq]
      constructor
      · intro h
        cases hsp : splitAtPred q t with
        | none => rw [hsp] at h; cases h
        | some p =>
          rw [hsp] at h
          obtain ⟨a', b'⟩ := p
          simp only at h
          obtain ⟨rfl, rfl⟩ : a = d :: a' ∧ b' = b := by
            constructor <;> · injection h with h2; injection h2 <;> simp_all
          obtain ⟨hall, c, hc, hl⟩ := ih.mp hsp
          refine ⟨?_, c, hc, by simp [hl]⟩
          intro x hx
          rcases List.mem_cons.mp hx with rfl | hx
          · simpa using hq
          · exact hall x hx
      · rintro ⟨hall, c, hc, hl⟩
        cases a with
        | nil =>
          simp only [List.nil_append] at hl
          have h0 : d = c := by injection hl
          rw [← h0] at hc
          exact absurd hc (by simpa using hq)
        | cons a0 a' =>
          have h0 : d = a0 := by injection hl
          have ht : t = a' ++ c :: b := by
            injection hl with h1 h2
          have hgo : splitAtPred q t = some (a', b) :=
            ih.mpr ⟨fun x hx => hall x (by simp [hx]), c, hc, ht⟩
          rw [hgo, h0]

theorem splitAtPred_none_iff {q : Char → Bool} {l : List Char} :
    splitAtPred q l = none ↔ ∀ x ∈ l, q x = false := by
  induction l with
  | nil => simp [splitAtPred]
  | cons d t ih =>
    by_cases hq : q d
    · simp [splitAtPred, hq]
    · simp only [splitAtPred, if_neg hq]
      cases hsp : splitAtPred q t with
      | none =>
        simp only [eq_self_iff_true, true_iff]
        intro x hx
        rcases List.mem_cons.mp hx with rfl | hx
        · simpa using hq
        · exact (ih.mp hsp) x hx
      | some p =>
        obtain ⟨a', b'⟩ := p
        constructor
        · intro h; cases h
        · intro h
          have : splitAtPred q t = none := ih.mpr fun x hx => h x (by simp [hx])
          rw [this] at hsp; cases hsp

theorem takeWhile_append_all {q : Char → Bool} {a : List Char} (r : List Char)
    (h : ∀ c ∈ a, q c = true) : (a ++ r).takeWhile q = a ++ r.takeWhile q := by
  induction a with
  | nil => simp
  | cons c t ih =>
    simp [List.takeWhile_cons, h c (by simp), ih fun x hx => h x (by simp [hx])]

theorem dropWhile_append_all {q : Char → Bool} {a : List Char} (r : List Char)
    (h : ∀ c ∈ a, q c = true) : (a ++ r).dropWhile q = r.dropWhile q := by
  induction a with
  | nil => simp
  | cons c t ih =>
    simp [List.dropWhile_cons, h c (by simp), ih fun x hx => h x (by simp [hx])]

theorem takeWhile_eq_self_of_all {q : Char → Bool} {l : List Char}
    (h : ∀ c ∈ l, q c = true) : l.takeWhile q = l := by
  induction l with
  | nil => rfl
  | cons c t ih => simp [List.takeWhile_cons, h c (by simp), ih fun x hx => h x (by simp [hx])]

theorem mem_takeWhile_mem {q : Char → Bool} {l : List Char} {x : Char}
    (h : x ∈ l.takeWhile q) : q x = true ∧ x ∈ l := by
  induction l with
  | nil => simp at h
  | cons c t ih =>
    by_cases hq : q c
    · rw [List.takeWhile_cons, if_pos hq] at h
      rcases List.mem_cons.mp h with rfl | h
      · exact ⟨hq, by simp⟩
      · exact ⟨(ih h).1, by simp [(ih h).2]⟩
    · rw [List.takeWhile_cons, if_neg hq] at h
      simp at h

theorem head_dropWhile_false {q : Char → Bool} {l : List Char} {c : Char}
    (h : (l.dropWhile q).head? = some c) : q c = false := by
  induction l with
  | nil => simp [List.dropWhile] at h
  | cons d t ih =>
    by_cases hq : q d
    · rw [List.dropWhile_cons, if_pos hq] at h; exact ih h
    · rw [List.dropWhile_cons, if_neg hq] at h
      have : d = c := by injection h
      subst this; simpa using hq

theorem dropWhile_eq_self_of_head {q : Char → Bool} {l : List Char}
    (h : ∀ c, l.head? = some c → q c = false) : l.dropWhile q = l := by
  cases l with
  | nil => rfl
  | cons d t => simp [List.dropWhile_cons, h d rfl]

theorem dropWhile_suffix_decomp (q : Char → Bool) (l : List Char) :
    ∃ t, l = t ++ l.dropWhile q := by
  induction l with
  | nil => exact ⟨[], rfl⟩
  | cons d t ih =>
    by_cases hq : q d
    · obtain ⟨u, hu⟩ := ih
      refine ⟨d :: u, ?_⟩
      rw [List.dropWhile_cons, if_pos hq]
      simpa using hu
    · exact ⟨[], by rw [List.dropWhile_cons, if_neg hq]; rfl⟩

theorem head_append_left {x y : List Char} (h : x ≠ []) :
    (x ++ y).head? = x.head? := by
  cases x with
  | nil => exact absurd rfl h
  | cons => rfl

/-! ### Lemmas about stripping -/

theorem stripChars_head_false {l : List Char} {c : Char}
    (h : (stripChars l).head? = some c) : c.isWhitespace = false := by
  unfold stripChars at h
  obtain ⟨t, ht⟩ :=
    dropWhile_suffix_decomp Char.isWhitespace (l.dropWhile Char.isWhitespace).reverse
  have hrev : l.dropWhile Char.isWhitespace =
      ((l.dropWhile Char.isWhitespace).reverse.dropWhile Char.isWhitespace).reverse ++
        t.reverse := by
    have h2 := congrArg List.reverse ht
    simpa [List.reverse_append] using h2
  have hBne :
      ((l.dropWhile Char.isWhitespace).reverse.dropWhile Char.isWhitespace).reverse ≠ [] := by
    intro hnil
    rw [hnil] at h
    cases h
  have hA : (l.dropWhile Char.isWhitespace).head? = some c := by
    rw [hrev, head_append_left hBne]
    exact h
  exact head_dropWhile_false hA

theorem stripChars_last_false {l : List Char} {c : Char}
    (h : (stripChars l).reverse.head? = some c) : c.isWhitespace = false := by
  unfold stripChars at h
  rw [List.reverse_reverse] at h
  exact head_dropWhile_false h

theorem stripChars_eq_self {l : List Char}
    (h1 : ∀ c, l.head? = some c → c.isWhitespace = false)
    (h2 : ∀ c, l.reverse.head? = some c → c.isWhitespace = false) :
    stripChars l = l := by
  unfold stripChars
  rw [dropWhile_eq_self_of_head h1, dropWhile_eq_self_of_head h2, List.reverse_reverse]

theorem stripChars_idem (l : List Char) : stripChars (stripChars l) = stripChars l :=
  stripChars_eq_self (fun _ h => stripChars_head_false h)
    (fun _ h => stripChars_last_false h)

theorem mem_stripChars {l : List Char} {x : Char} (h : x ∈ stripChars l) : x ∈ l := by
  unfold stripChars at h
  rw [List.mem_reverse] at h
  obtain ⟨t, ht⟩ :=
    dropWhile_suffix_decomp Char.isWhitespace (l.dropWhile Char.isWhitespace).reverse
  have h2 : x ∈ (l.dropWhile Char.isWhitespace).reverse := by
    rw [ht]; exact List.mem_append_right _ h
  rw [List.mem_reverse] at h2
  obtain ⟨u, hu⟩ := dropWhile_suffix_decomp Char.isWhitespace l
  rw [hu]; exact List.mem_append_right _ h2

/-! ### Indexing lemmas -/

theorem getD_append_lt {α : Type} {a : List α} (b : List α) {j : Nat} (d : α)
    (h : j < a.length) : (a ++ b).getD j d = a.getD j d := by
  induction a generalizing j with
  | nil => simp at h
  | cons x t ih =>
    cases j with
    | zero => rfl
    | succ j =>
      have := ih (j := j) (by simpa using Nat.lt_of_succ_lt_succ h)
      simpa [List.getD] using this

theorem getD_append_add {α : Type} (a b : List α) (j : Nat) (d : α) :
    (a ++ b).getD (a.length + j) d = b.getD j d := by
  induction a with
  | nil => simp
  | cons x t ih =>
    have : t.length + 1 + j = (t.length + j) + 1 := by omega
    simp only [List.cons_append, List.length_cons, this]
    simpa [List.getD] using ih

/-! ### Characterization of the accepted parameter lines -/

theorem dropPrefixQ_cons_ne {a b : Char} {p s : List Char} (h : a ≠ b) :
    dropPrefixQ (a :: p) (b :: s) = none := by
  simp [dropPrefixQ, h]

theorem isWordChar_space : isWordChar ' ' = false := by decide

/-- The parameter pattern accepts exactly the lines with a `paramShapeAt`
decomposition, and then produces exactly the fields of that
decomposition. -/
theorem parse_param_core_eq_some_iff {s : List Char} {info : ParamInfo} :
    parse_param_core s = some info ↔
      ∃ nm typ req tail, paramShapeAt s nm typ req tail ∧
        info = { name := nm, type := stripChars typ, required := req,
                 default := parseDefaultClause tail } := by
  constructor
  · intro h
    unfold parse_param_core at h
    split at h
    · exact absurd h (by simp)
    rename_i s1 h1
    split at h
    · exact absurd h (by simp)
    rename_i hnm
    split at h
    · exact absurd h (by simp)
    rename_i rest1 h2
    split at h
    · exact absurd h (by simp)
    rename_i pp pre post h3
    split at h
    case _ t1 h4 =>
      split at h
      · exact absurd h (by simp)
      rename_i ht1
      split at h
      case _ rest2 =>
        -- assemble the common parts of the decomposition
        have hs1 : s = "## @param ".toList ++ s1 := dropPrefixQ_some_iff.mp h1
        have hsplit : s1 = s1.takeWhile isWordChar ++ s1.dropWhile isWordChar :=
          (List.takeWhile_append_dropWhile isWordChar s1).symm
        have hdw : s1.dropWhile isWordChar = " - ".toList ++ rest1 :=
          dropPrefixQ_some_iff.mp h2
        obtain ⟨hnohy, cc, hcc, hrest1⟩ := splitAtPred_some_iff.mp h3
        have hcc' : cc = '-' := by simpa using hcc
        subst hcc'
        have hpre : pre = t1.reverse ++ [' '] := by
          have h4' := congrArg List.reverse h4
          simpa using h4'
        have htyp_ne : t1.reverse ≠ [] := by simpa using ht1
        have hnohy' : '-' ∉ t1.reverse := by
          intro hx
          have hx2 : ('-' : Char) ∈ pre := by
            rw [hpre]; exact List.mem_append_left _ hx
          have hfalse := hnohy '-' hx2
          simp at hfalse
        have hword : ∀ x ∈ s1.takeWhile isWordChar, isWordChar x = true :=
          fun x hx => (mem_takeWhile_mem hx).1
        have hrest1' : rest1 = t1.reverse ++ " - ".toList ++ rest2 := by
          have hlit : " - ".toList = [' ', '-', ' '] := rfl
          rw [hrest1, hpre, hlit]
          simp
        split at h
        case _ rest3 h6 =>
          have hflag : rest2 = "optional".toList ++ rest3 := dropPrefixQ_some_iff.mp h6
          refine ⟨s1.takeWhile isWordChar, t1.reverse, false, rest3,
            ⟨?_, hnm, hword, htyp_ne, hnohy'⟩, ?_⟩
          · rw [hs1]
            conv_lhs => rw [hsplit]
            rw [hdw, hrest1', hflag]
            simp [flagStr]
          · injection h with h7
            exact h7.symm
        case _ h6 =>
          split at h
          case _ rest3 h7 =>
            have hflag : rest2 = "required".toList ++ rest3 := dropPrefixQ_some_iff.mp h7
            refine ⟨s1.takeWhile isWordChar, t1.reverse, true, rest3,
              ⟨?_, hnm, hword, htyp_ne, hnohy'⟩, ?_⟩
            · rw [hs1]
              conv_lhs => rw [hsplit]
              rw [hdw, hrest1', hflag]
              simp [flagStr]
            · injection h with h8
              exact h8.symm
          case _ => exact absurd h (by simp)
      case _ => exact absurd h (by simp)
    case _ => exact absurd h (by simp)
  · rintro ⟨nm, typ, req, tail, ⟨hs, hnm, hword, htyp, hhyph⟩, rfl⟩
    subst hs
    have e1 : dropPrefixQ ("## @param ".toList)
        ("## @param ".toList ++ nm ++ " - ".toList ++ typ ++ " - ".toList ++
          flagStr req ++ tail) =
        some (nm ++ (" - ".toList ++ (typ ++ (" - ".toList ++ (flagStr req ++ tail))))) := by
      apply dropPrefixQ_some_iff.mpr
      simp
    have hR : " - ".toList ++ (typ ++ (" - ".toList ++ (flagStr req ++ tail))) =
        ' ' :: ('-' :: (' ' :: (typ ++ (" - ".toList ++ (flagStr req ++ tail))))) := rfl
    have e2 : (nm ++ (" - ".toList ++ (typ ++ (" - ".toList ++ (flagStr req ++ tail))))).takeWhile
        isWordChar = nm := by
      rw [takeWhile_append_all _ hword, hR]
      rw [List.takeWhile_cons, if_neg (by simp [isWordChar_space])]
      simp
    have e3 : (nm ++ (" - ".toList ++ (typ ++ (" - ".toList ++ (flagStr req ++ tail))))).dropWhile
        isWordChar = " - ".toList ++ (typ ++ (" - ".toList ++ (flagStr req ++ tail))) := by
      rw [dropWhile_append_all _ hword, hR]
      rw [List.dropWhile_cons, if_neg (by simp [isWordChar_space])]
    have e4 : dropPrefixQ (" - ".toList)
        (" - ".toList ++ (typ ++ (" - ".toList ++ (flagStr req ++ tail)))) =
        some (typ ++ (" - ".toList ++ (flagStr req ++ tail))) :=
      dropPrefixQ_some_iff.mpr rfl
    have e5 : splitAtPred (fun c => c == '-') (typ ++ (" - ".toList ++ (flagStr req ++ tail))) =
        some (typ ++ [' '], ' ' :: (flagStr req ++ tail)) := by
      apply splitAtPred_some_iff.mpr
      refine ⟨?_, '-', by simp, ?_⟩
      · intro x hx
        rcases List.mem_append.mp hx with hx | hx
        · have hne : x ≠ '-' := fun hxeq => hhyph (hxeq ▸ hx)
          simpa using hne
        · have hx' : x = ' ' := by simpa using hx
          subst hx'; decide
      · have hlit : " - ".toList = [' ', '-', ' '] := rfl
        rw [hlit]
        simp
    have e6 : (typ ++ [' ']).reverse = ' ' :: typ.reverse := by simp
    have e7 : ¬(typ.reverse = []) := by simpa using htyp
    unfold parse_param_core
    rw [e1]
    simp only [e2, e3, if_neg hnm, e4, e5, e6, if_neg e7]
    cases req with
    | false =>
      have e8 : dropPrefixQ ("optional".toList) (flagStr false ++ tail) = some tail :=
        dropPrefixQ_some_iff.mpr rfl
      simp only [e8]
      simp
    | true =>
      have e8 : dropPrefixQ ("optional".toList) (flagStr true ++ tail) = none := by
        have hf : flagStr true ++ tail = 'r' :: ("equired".toList ++ tail) := rfl
        rw [hf]
        exact dropPrefixQ_cons_ne (by decide)
      have e9 : dropPrefixQ ("required".toList) (flagStr true ++ tail) = some tail :=
        dropPrefixQ_some_iff.mpr rfl
      simp only [e8, e9]
      simp

theorem parse_param_core_isSome_iff {s : List Char} :
    (parse_param_core s).isSome = true ↔ amendedParamShape s := by
  rw [Option.isSome_iff_exists]
  constructor
  · rintro ⟨info, h⟩
    obtain ⟨nm, typ, req, tail, hshape, -⟩ := parse_param_core_eq_some_iff.mp h
    exact ⟨nm, typ, req, tail, hshape⟩
  · rintro ⟨nm, typ, req, tail, hshape⟩
    exact ⟨_, parse_param_core_eq_some_iff.mpr ⟨nm, typ, req, tail, hshape, rfl⟩⟩

theorem classify_paramD_inv {l : List Char} {info : ParamInfo}
    (h : classify l = .paramD info) :
    parse_param_core (stripChars l) = some info ∧
    containsSub ("custom object".toList) (stripChars l) = false := by
  unfold classify at h
  split at h
  · cases h
  split at h
  · split at h <;> cases h
  split at h
  · split at h
    · split at h <;> cases h
    · rename_i hco
      split at h
      case _ info2 hp =>
        injection h with h4
        subst h4
        refine ⟨?_, by simpa using hco⟩
        unfold parse_param_comment at hp
        rwa [stripChars_idem] at hp
      case _ => cases h
  · cases h

theorem classify_paramD_of {l : List Char} {info : ParamInfo}
    (hp : parse_param_core (stripChars l) = some info)
    (hco : containsSub ("custom object".toList) (stripChars l) = false) :
    classify l = .paramD info := by
  obtain ⟨nm, typ, req, tail, ⟨hs, -, -, -, -⟩, -⟩ := parse_param_core_eq_some_iff.mp hp
  have hs' : stripChars l = "## @param ".toList ++
      (nm ++ (" - ".toList ++ (typ ++ (" - ".toList ++ (flagStr req ++ tail))))) := by
    rw [hs]
    simp [List.append_assoc]
  have hne : stripChars l ≠ [] := by
    rw [hs']
    intro hnil
    have h1 := List.append_eq_nil.mp hnil
    exact absurd h1.1 (by decide)
  have hbrace : startsWithQ ("\x7b\x7b".toList) (stripChars l) = false := by
    rw [Bool.eq_false_iff]
    intro hb
    obtain ⟨r, hr⟩ := startsWithQ_iff.mp hb
    rw [hs'] at hr
    have h1 := congrArg List.head? hr
    rw [head_append_left (by decide), head_append_left (by decide)] at h1
    have h2 : some '#' = some '\x7b' := by
      calc some '#' = "## @param ".toList.head? := by decide
        _ = "\x7b\x7b".toList.head? := h1
        _ = some '\x7b' := by decide
    have h3 : ('#' : Char) = '\x7b' := by injection h2
    exact absurd h3 (by decide)
  have hpp : startsWithQ ("## @param".toList) (stripChars l) = true := by
    apply startsWithQ_iff.mpr
    refine ⟨' ' :: (nm ++ (" - ".toList ++ (typ ++ (" - ".toList ++ (flagStr req ++ tail))))), ?_⟩
    rw [hs']
    have hsp : "## @param ".toList = "## @param".toList ++ [' '] := by decide
    rw [hsp]
    simp
  have hpc : parse_param_comment (stripChars l) = some info := by
    unfold parse_param_comment
    rwa [stripChars_idem]
  unfold classify
  rw [if_neg hne, hbrace, hpp, hco]
  simp only [Bool.false_eq_true, if_false, if_true, hpc]

theorem isClassifiedParam_iff {l : List Char} :
    isClassifiedParam l = true ↔
      ((parse_param_core (stripChars l)).isSome = true ∧
        containsSub ("custom object".toList) (stripChars l) = false) := by
  constructor
  · intro h
    unfold isClassifiedParam at h
    cases hcl : classify l with
    | paramD info =>
      obtain ⟨h1, h2⟩ := classify_paramD_inv hcl
      exact ⟨by rw [h1]; rfl, h2⟩
    | templateClose => rw [hcl] at h; cases h
    | templateOpen => rw [hcl] at h; cases h
    | sectionD n => rw [hcl] at h; cases h
    | other => rw [hcl] at h; cases h
  · rintro ⟨hsome, hco⟩
    obtain ⟨info, hp⟩ := Option.isSome_iff_exists.mp hsome
    unfold isClassifiedParam
    rw [classify_paramD_of hp hco]

/-! ### Claim theorems -/

/-- Claim C1: a `## @param x - list of custom objects - optional` line
matches the ParameterDirective grammar and should, per the code's own
lookup tables, produce an array node with object items — but the driver's
routing test `"custom object" in line` sends every such line to the
section branch, whose exact-type pattern fails, so the directive is
silently dropped and nothing at all is inserted into the schema.  The
first conjunct shows the line matches the claimed grammar, the middle two
show the code's own type tables map it to an array of objects, and the
last shows the parse of a document containing it produces an empty
property mapping. -/
theorem C1_list_of_custom_objects_dropped :
    specParamGrammarB ("## @param x - list of custom objects - optional".toList) = true ∧
    yaml_type_to_json_type ("list of custom objects".toList) = "array".toList ∧
    get_array_items_schema ("list of custom objects".toList) = "object".toList ∧
    parse_template_file
      ["## @param x - list of custom objects - optional".toList, "  x:".toList] =
      some { properties := [], required := none } :=
  ⟨rfl, rfl, rfl, rfl⟩

/-- Claim C2 is false as stated: the line `## @param x - foo-bar - optional`
matches the claimed grammar (its type text `foo-bar` contains no embedded
` - `), yet the classifier does not classify it as a ParameterDirective,
because the regex type group `[^-]+` rejects every hyphen. -/
theorem C2_counterexample :
    specParamGrammarB ("## @param x - foo-bar - optional".toList) = true ∧
    isClassifiedParam ("## @param x - foo-bar - optional".toList) = false :=
  ⟨rfl, rfl⟩

/-- Claim C2 (amended): a line is classified as a ParameterDirective iff
its stripped form decomposes as
`## @param <identifier> - <type text> - (optional|required)<tail>` where
the type text is non-empty and contains no hyphen character at all, the
tail is arbitrary trailing text (a default clause is parsed from it only
when it literally starts with ` - default: `), and the line does not
contain the substring `custom object` (such lines are routed to the
section branch instead). -/
theorem C2_amended_classifier (l : List Char) :
    isClassifiedParam l = true ↔
      (amendedParamShape (stripChars l) ∧
       containsSub ("custom object".toList) (stripChars l) = false) := by
  rw [isClassifiedParam_iff]
  exact and_congr parse_param_core_isSome_iff Iff.rfl

/-- Claim C3: with a resolved parameter indent of zero the section
resolver always returns root attachment, whatever the current section and
the open-section stack are. -/
theorem C3_zero_indent_resolves_root (cs : Option (List Char))
    (stack : List (List Char)) :
    determine_target_section cs 0 stack = none := rfl

/-- Claim C10: the section resolver never inspects its stack argument:
for any two stacks the result is identical. -/
theorem C10_stack_noninterference (cs : Option (List Char)) (ind : Nat)
    (s1 s2 : List (List Char)) :
    determine_target_section cs ind s1 = determine_target_section cs ind s2 := rfl

/-- Claim C6: whenever a parsed parameter directive carries a written
default that coerces to the absent value, and its type does not resolve
to `array`, the emitted node has no `default` field at all. -/
theorem C6_unparseable_default_suppressed (line : List Char) (info : ParamInfo)
    (d desc : List Char)
    (hp : parse_param_comment line = some info)
    (hd : info.default = some d)
    (hc : parse_default_value d = none)
    (hna : yaml_type_to_json_type info.type ≠ "array".toList) :
    (build_property_schema info desc).default = none := by
  unfold build_property_schema
  have hna' : ¬yaml_type_to_json_type info.type = ['a', 'r', 'r', 'a', 'y'] := by
    simpa using hna
  simp [hd, hc, hna']

/-- Witness for C6 at the spec's example: the `<HOSTNAME_NAME>`
placeholder default of a string parameter is suppressed, and the full
emitted node has exactly the string type, an empty description, and no
default, items or additionalProperties fields. -/
theorem C6_witness :
    parse_param_comment
        ("## @param host - string - optional - default: <HOSTNAME_NAME>".toList) =
      some { name := "host".toList, type := "string".toList, required := false,
             default := some ("<HOSTNAME_NAME>".toList) } ∧
    build_property_schema
        { name := "host".toList, type := "string".toList, required := false,
          default := some ("<HOSTNAME_NAME>".toList) } [] =
      { type := "string".toList, description := [], default := none, items := none,
        addProps := false } ∧
    (build_property_schema
        { name := "host".toList, type := "string".toList, required := false,
          default := some ("<HOSTNAME_NAME>".toList) } []).default = none :=
  ⟨rfl, rfl,
    C6_unparseable_default_suppressed
      ("## @param host - string - optional - default: <HOSTNAME_NAME>".toList)
      { name := "host".toList, type := "string".toList, required := false,
        default := some ("<HOSTNAME_NAME>".toList) }
      ("<HOSTNAME_NAME>".toList) [] rfl rfl rfl (by decide)⟩

/-- Claim C7: a parsed parameter directive whose type resolves to `array`
and which has no usable written default is emitted with the item schema
derived from its type text and with the empty list as default. -/
theorem C7_array_items_and_empty_default (line : List Char) (info : ParamInfo)
    (desc : List Char)
    (hp : parse_param_comment line = some info)
    (ha : yaml_type_to_json_type info.type = "array".toList)
    (hd : noUsableDefault info) :
    (build_property_schema info desc).items = some (get_array_items_schema info.type) ∧
    (build_property_schema info desc).default = some JsonValue.jarrEmpty := by
  have hd0 : (match info.default with
      | none => none
      | some ds => parse_default_value ds) = (none : Option JsonValue) := by
    cases hdef : info.default with
    | none => rfl
    | some d => simpa using hd d hdef
  unfold build_property_schema
  simp [hd0, ha]

/-- Witness for C7 at the spec's example: `## @param tags - list of
strings - optional` produces
an array node with empty description, string items and the empty list
as default. -/
theorem C7_witness :
    parse_param_comment ("## @param tags - list of strings - optional".toList) =
      some { name := "tags".toList, type := "list of strings".toList,
             required := false, default := none } ∧
    build_property_schema
        { name := "tags".toList, type := "list of strings".toList,
          required := false, default := none } [] =
      { type := "array".toList, description := [], default := some JsonValue.jarrEmpty,
        items := some ("string".toList), addProps := false } ∧
    ((build_property_schema
        { name := "tags".toList, type := "list of strings".toList,
          required := false, default := none } []).items =
      some (get_array_items_schema ("list of strings".toList)) ∧
     (build_property_schema
        { name := "tags".toList, type := "list of strings".toList,
          required := false, default := none } []).default =
      some JsonValue.jarrEmpty) :=
  ⟨rfl, rfl,
    C7_array_items_and_empty_default
      ("## @param tags - list of strings - optional".toList)
      { name := "tags".toList, type := "list of strings".toList,
        required := false, default := none } [] rfl (by decide)
      (fun d h => by cases h)⟩

/-! ### Round-trip of the parameter parser (claim C8) -/

theorem rev_head_append {a b : List Char} (hb : b ≠ []) :
    (a ++ b).reverse.head? = b.reverse.head? := by
  rw [List.reverse_append]
  exact head_append_left (by simpa using hb)

theorem parseDefaultClause_clause {d : List Char}
    (hnl : ∀ x ∈ d, (!(x == '\n')) = true)
    (hne : d ≠ [])
    (hstr : stripChars d = d) :
    parseDefaultClause (" - default: ".toList ++ d) = some d := by
  unfold parseDefaultClause
  rw [dropPrefixQ_some_iff.mpr rfl]
  simp only [takeWhile_eq_self_of_all hnl, if_neg hne, hstr]

/-- Claim C8 is false as stated: the accepted line
`## @param x -   - optional` parses (its raw type text is a single space,
stripped to the empty string), but re-serializing the parsed fields and
re-parsing fails entirely, because the serialized separator `-  -` no
longer carries a non-empty type text. -/
theorem C8_counterexample :
    parse_param_comment ("## @param x -   - optional".toList) =
      some { name := "x".toList, type := [], required := false, default := none } ∧
    parse_param_comment (serializeParam
      { name := "x".toList, type := [], required := false, default := none }) = none :=
  ⟨rfl, rfl⟩

/-- Claim C8 (amended): parse-serialize-parse round-trips on every
accepted line whose parsed type text is non-empty and whose parsed
default, when present, is non-empty. -/
theorem C8_roundtrip_amended (line : List Char) (info : ParamInfo)
    (hp : parse_param_comment line = some info)
    (ht : info.type ≠ [])
    (hd : info.default ≠ some []) :
    parse_param_comment (serializeParam info) = some info := by
  unfold parse_param_comment at hp
  obtain ⟨nm, typ, req, tail, ⟨hs, hnm, hword, htyp, hhyph⟩, hinfo⟩ :=
    parse_param_core_eq_some_iff.mp hp
  subst hinfo
  simp only [] at ht hd
  -- facts about the parsed type text
  have hT1 : stripChars (stripChars typ) = stripChars typ := stripChars_idem typ
  have hT2 : '-' ∉ stripChars typ := fun hx => hhyph (mem_stripChars hx)
  -- case on the parsed default
  cases hdc : parseDefaultClause tail with
  | none =>
    have hser : serializeParam
        { name := nm, type := stripChars typ, required := req, default := none } =
        "## @param ".toList ++ nm ++ " - ".toList ++ stripChars typ ++ " - ".toList ++
          flagStr req := by
      unfold serializeParam
      simp
    have hserR : serializeParam
        { name := nm, type := stripChars typ, required := req, default := none } =
        "## @param ".toList ++ (nm ++ (" - ".toList ++ (stripChars typ ++
          (" - ".toList ++ flagStr req)))) := by
      rw [hser]; simp [List.append_assoc]
    have hstrip : stripChars (serializeParam
        { name := nm, type := stripChars typ, required := req, default := none }) =
        serializeParam
          { name := nm, type := stripChars typ, required := req, default := none } := by
      apply stripChars_eq_self
      · intro c hc
        rw [hserR, head_append_left (by decide)] at hc
        have hc' : c = '#' := by
          have h2 : some '#' = some c := by
            calc some '#' = "## @param ".toList.head? := by decide
              _ = some c := hc
          injection h2 with h3
          exact h3.symm
        subst hc'; decide
      · intro c hc
        rw [hser] at hc
        rw [rev_head_append (by cases req <;> decide)] at hc
        cases req with
        | false =>
          have h2 : some 'l' = some c := by
            calc some 'l' = (flagStr false).reverse.head? := by decide
              _ = some c := hc
          injection h2 with h3
          rw [← h3]; decide
        | true =>
          have h2 : some 'd' = some c := by
            calc some 'd' = (flagStr true).reverse.head? := by decide
              _ = some c := hc
          injection h2 with h3
          rw [← h3]; decide
    unfold parse_param_comment
    rw [hstrip]
    apply parse_param_core_eq_some_iff.mpr
    refine ⟨nm, stripChars typ, req, [],
      ⟨by rw [hser]; simp, hnm, hword, ht, hT2⟩, ?_⟩
    have hpd : parseDefaultClause [] = none := rfl
    rw [hT1, hpd]
  | some d =>
    -- structure of the parsed default
    have hdne : d ≠ [] := by
      intro hnil
      rw [hdc, hnil] at hd
      exact hd rfl
    obtain ⟨hdstr, hdnl⟩ : stripChars d = d ∧ ∀ x ∈ d, (!(x == '\n')) = true := by
      unfold parseDefaultClause at hdc
      split at hdc
      case _ d1 hd1 =>
        by_cases hif : List.takeWhile (fun c => !(c == '\n')) d1 = []
        · simp [hif] at hdc
        · simp only [if_neg hif] at hdc
          injection hdc with hd3
          constructor
          · rw [← hd3]; exact stripChars_idem _
          · intro x hx
            rw [← hd3] at hx
            exact (mem_takeWhile_mem (mem_stripChars hx)).1
      case _ => cases hdc
    have hser : serializeParam
        { name := nm, type := stripChars typ, required := req, default := some d } =
        "## @param ".toList ++ nm ++ " - ".toList ++ stripChars typ ++ " - ".toList ++
          flagStr req ++ (" - default: ".toList ++ d) := by
      unfold serializeParam
      simp
    have hserR : serializeParam
        { name := nm, type := stripChars typ, required := req, default := some d } =
        "## @param ".toList ++ (nm ++ (" - ".toList ++ (stripChars typ ++
          (" - ".toList ++ (flagStr req ++ (" - default: ".toList ++ d)))))) := by
      rw [hser]; simp [List.append_assoc]
    have hstrip : stripChars (serializeParam
        { name := nm, type := stripChars typ, required := req, default := some d }) =
        serializeParam
          { name := nm, type := stripChars typ, required := req, default := some d } := by
      apply stripChars_eq_self
      · intro c hc
        rw [hserR, head_append_left (by decide)] at hc
        have hc' : c = '#' := by
          have h2 : some '#' = some c := by
            calc some '#' = "## @param ".toList.head? := by decide
              _ = some c := hc
          injection h2 with h3
          exact h3.symm
        subst hc'; decide
      · intro c hc
        rw [hser, rev_head_append (by simp), rev_head_append hdne] at hc
        exact stripChars_last_false (by rw [← hdstr] at hc; exact hc)
    unfold parse_param_comment
    rw [hstrip]
    apply parse_param_core_eq_some_iff.mpr
    refine ⟨nm, stripChars typ, req, " - default: ".toList ++ d,
      ⟨by rw [hser], hnm, hword, ht, hT2⟩, ?_⟩
    rw [parseDefaultClause_clause hdnl hdne hdstr, hT1]


/-- Witness for C8 (amended) at the spec's example line
`## @param timeout - integer - optional - default: 30`. -/
theorem C8_witness :
    parse_param_comment ("## @param timeout - integer - optional - default: 30".toList) =
      some { name := "timeout".toList, type := "integer".toList, required := false,
             default := some ("30".toList) } ∧
    parse_param_comment (serializeParam
      { name := "timeout".toList, type := "integer".toList, required := false,
        default := some ("30".toList) }) =
      some { name := "timeout".toList, type := "integer".toList, required := false,
             default := some ("30".toList) } :=
  ⟨rfl,
    C8_roundtrip_amended
      ("## @param timeout - integer - optional - default: 30".toList)
      { name := "timeout".toList, type := "integer".toList, required := false,
        default := some ("30".toList) }
      rfl (by decide) (by decide)⟩

/-! ### The backward context scan (claim C4) -/

theorem scanBack_cons_neutral {h : List Char} {t : List (List Char)}
    (hn : scanNeutral h) : scanBack (h :: t) = scanBack t := by
  obtain ⟨h1, h2⟩ := hn
  show (match classify h with
    | Directive.sectionD n => some n
    | Directive.templateClose => none
    | _ => scanBack t) = scanBack t
  cases hcl : classify h with
  | sectionD m => exact absurd hcl (h1 m)
  | templateClose => exact absurd hcl h2
  | templateOpen => rfl
  | paramD i => rfl
  | other => rfl

theorem scanBack_cons_section {h : List Char} {t : List (List Char)} {m : List Char}
    (hcl : classify h = .sectionD m) : scanBack (h :: t) = some m := by
  show (match classify h with
    | Directive.sectionD n => some n
    | Directive.templateClose => none
    | _ => scanBack t) = some m
  rw [hcl]

theorem scanBack_cons_close {h : List Char} {t : List (List Char)}
    (hcl : classify h = .templateClose) : scanBack (h :: t) = none := by
  show (match classify h with
    | Directive.sectionD n => some n
    | Directive.templateClose => none
    | _ => scanBack t) = none
  rw [hcl]

theorem neutral_decomp_iff {h : List Char} {t : List (List Char)} {n : List Char}
    (hn : scanNeutral h) :
    (∃ a s b, t = a ++ s :: b ∧ (∀ x ∈ a, scanNeutral x) ∧ classify s = .sectionD n) ↔
    (∃ a s b, h :: t = a ++ s :: b ∧ (∀ x ∈ a, scanNeutral x) ∧ classify s = .sectionD n) := by
  constructor
  · rintro ⟨a, s, b, hl, hne, hsec⟩
    refine ⟨h :: a, s, b, by rw [hl]; rfl, ?_, hsec⟩
    intro x hx
    rcases List.mem_cons.mp hx with rfl | hx
    · exact hn
    · exact hne x hx
  · rintro ⟨a, s, b, hl, hne, hsec⟩
    cases a with
    | nil =>
      have h1 : h = s := by injection hl
      subst h1
      exact absurd hsec (hn.1 n)
    | cons a0 a' =>
      have h1 : h = a0 := by injection hl
      have h2 : t = a' ++ s :: b := by injection hl
      exact ⟨a', s, b, h2, fun x hx => hne x (by simp [hx]), hsec⟩

theorem scanBack_some_iff {l : List (List Char)} {n : List Char} :
    scanBack l = some n ↔
      ∃ a s b, l = a ++ s :: b ∧ (∀ x ∈ a, scanNeutral x) ∧ classify s = .sectionD n := by
  induction l with
  | nil =>
    constructor
    · intro h; cases h
    · rintro ⟨a, s, b, hl, -, -⟩
      exact absurd hl (by simp)
  | cons h t ih =>
    cases hcl : classify h with
    | sectionD m =>
      rw [scanBack_cons_section hcl]
      constructor
      · intro heq
        have hmn : m = n := by injection heq
        subst hmn
        exact ⟨[], h, t, rfl, by simp, hcl⟩
      · rintro ⟨a, s, b, hl, hne, hsec⟩
        cases a with
        | nil =>
          have h1 : h = s := by injection hl
          subst h1
          rw [hcl] at hsec
          injection hsec with h2
          rw [h2]
        | cons a0 a' =>
          have h1 : h = a0 := by injection hl
          subst h1
          exact absurd hcl ((hne h (by simp)).1 m)
    | templateClose =>
      rw [scanBack_cons_close hcl]
      constructor
      · intro heq; cases heq
      · rintro ⟨a, s, b, hl, hne, hsec⟩
        cases a with
        | nil =>
          have h1 : h = s := by injection hl
          subst h1
          rw [hcl] at hsec
          cases hsec
        | cons a0 a' =>
          have h1 : h = a0 := by injection hl
          subst h1
          exact absurd hcl (hne h (by simp)).2
    | templateOpen =>
      have hn : scanNeutral h :=
        ⟨fun nn hq => (by rw [hcl] at hq; cases hq), fun hq => (by rw [hcl] at hq; cases hq)⟩
      rw [scanBack_cons_neutral hn, ih]
      exact neutral_decomp_iff hn
    | paramD i =>
      have hn : scanNeutral h :=
        ⟨fun nn hq => (by rw [hcl] at hq; cases hq), fun hq => (by rw [hcl] at hq; cases hq)⟩
      rw [scanBack_cons_neutral hn, ih]
      exact neutral_decomp_iff hn
    | other =>
      have hn : scanNeutral h :=
        ⟨fun nn hq => (by rw [hcl] at hq; cases hq), fun hq => (by rw [hcl] at hq; cases hq)⟩
      rw [scanBack_cons_neutral hn, ih]
      exact neutral_decomp_iff hn

/-- Claim C4: the backward context scan over the lines before index `idx`
returns `some name` exactly when some preceding line is recognised as a
section directive named `name` and every line strictly between it and the
parameter is neither a section directive nor a template close; in every
other situation — a template close encountered first, or the start of the
document reached — it returns `none`. -/
theorem C4_backward_scan_characterization (lines : List (List Char)) (idx : Nat)
    (name : List Char) :
    find_section_context lines idx = some name ↔
      ∃ a s b, lines.take idx = a ++ s :: b ∧ classify s = .sectionD name ∧
        ∀ x ∈ b, scanNeutral x := by
  unfold find_section_context
  rw [scanBack_some_iff]
  constructor
  · rintro ⟨a, s, b, hl, hne, hsec⟩
    refine ⟨b.reverse, s, a.reverse, ?_, hsec, ?_⟩
    · have h2 := congrArg List.reverse hl
      simpa [List.reverse_append] using h2
    · intro x hx
      exact hne x (by simpa using hx)
  · rintro ⟨a, s, b, hl, hsec, hne⟩
    refine ⟨b.reverse, s, a.reverse, ?_, ?_, hsec⟩
    · rw [hl]
      simp [List.reverse_append]
    · intro x hx
      exact hne x (by simpa using hx)

/-! ### Termination of the driver loop (claim C9) -/

theorem ptGo_fuel_irrelevant (lines : List (List Char)) :
    ∀ (f1 f2 i : Nat) (st : PTState),
      lines.length - i ≤ f1 → lines.length - i ≤ f2 →
      ptGo lines f1 i st = ptGo lines f2 i st := by
  intro f1
  induction f1 with
  | zero =>
    intro f2 i st h1 h2
    have hlt : ¬i < lines.length := by omega
    cases f2 with
    | zero => rfl
    | succ f2 =>
      unfold ptGo
      rw [if_neg hlt]
  | succ f1 ih =>
    intro f2 i st h1 h2
    cases f2 with
    | zero =>
      have hlt : ¬i < lines.length := by omega
      unfold ptGo
      rw [if_neg hlt]
    | succ f2 =>
      by_cases hi : i < lines.length
      · unfold ptGo
        rw [if_pos hi, if_pos hi]
        cases hst : ptStep lines i st with
        | none => rfl
        | some st2 => exact ih f2 (i + 1) st2 (by omega) (by omega)
      · unfold ptGo
        rw [if_neg hi, if_neg hi]

/-- Claim C9: the single-pass parse terminates within `lines.length`
iterations — the driver loop advances its index by one every iteration,
so giving it any amount of extra fuel beyond the number of remaining
lines changes nothing.  (The forward scans `descPieces` and `fpliGo` and
the backward scan `scanBack` are structurally recursive on their list
arguments, so their termination is established by their definitions.) -/
theorem C9_driver_terminates (lines : List (List Char)) (extra i : Nat) (st : PTState) :
    ptGo lines (lines.length - i + extra) i st = ptGo lines (lines.length - i) i st :=
  ptGo_fuel_irrelevant lines _ _ i st (by omega) (by omega)

/-! ### Driver-walk lemmas (claim C5) -/

theorem getD_mem_of_lt {α : Type} {l : List α} {n : Nat} {d : α}
    (h : n < l.length) : l.getD n d ∈ l := by
  induction l generalizing n with
  | nil => simp at h
  | cons x t ih =>
    cases n with
    | zero => simp [List.getD]
    | succ n =>
      have h2 : t.getD n d ∈ t := ih (by simpa using Nat.lt_of_succ_lt_succ h)
      simp only [List.getD_cons_succ]
      exact List.mem_cons_of_mem _ h2

theorem scanBack_append_neutral {a r : List (List Char)}
    (h : ∀ x ∈ a, scanNeutral x) : scanBack (a ++ r) = scanBack r := by
  induction a with
  | nil => rfl
  | cons x t ih =>
    rw [List.cons_append, scanBack_cons_neutral (h x (by simp))]
    exact ih fun y hy => h y (by simp [hy])

theorem determine_none (p : Nat) (s : List (List Char)) :
    determine_target_section none p s = none := by
  unfold determine_target_section
  split <;> rfl

theorem ptStep_of_other {lines : List (List Char)} {i : Nat} {st : PTState}
    (h : classify (lines.getD i []) = .other) : ptStep lines i st = some st := by
  unfold ptStep
  rw [h]

theorem ptStep_of_close {lines : List (List Char)} {i : Nat} {st : PTState}
    (h : classify (lines.getD i []) = .templateClose) :
    ptStep lines i st = some (popClose st) := by
  unfold ptStep
  rw [h]

theorem ptStep_of_section {lines : List (List Char)} {i : Nat} {st : PTState}
    {name : List Char} (h : classify (lines.getD i []) = .sectionD name) :
    ptStep lines i st = some (openSection st name) := by
  unfold ptStep
  rw [h]

theorem ptStep_of_param {lines : List (List Char)} {i : Nat} {st : PTState}
    {info : ParamInfo} (h : classify (lines.getD i []) = .paramD info) :
    ptStep lines i st = handleParam lines i st info := by
  unfold ptStep
  rw [h]

theorem ptGo_oob (lines : List (List Char)) (f i : Nat) (st : PTState)
    (h : ¬i < lines.length) : ptGo lines f i st = some st := by
  cases f with
  | zero => rfl
  | succ f =>
    unfold ptGo
    rw [if_neg h]

theorem ptGo_step_some (lines : List (List Char)) (f i : Nat) (st st2 : PTState)
    (hi : i < lines.length) (hstep : ptStep lines i st = some st2) :
    ptGo lines (f + 1) i st = ptGo lines f (i + 1) st2 := by
  conv_lhs => unfold ptGo
  rw [if_pos hi, hstep]

theorem ptGo_skip_others (lines : List (List Char)) :
    ∀ (k f i : Nat) (st : PTState),
      (∀ j, j < k → classify (lines.getD (i + j) []) = .other) →
      ptGo lines (f + k) i st = ptGo lines f (i + k) st := by
  intro k
  induction k with
  | zero => intro f i st _; rfl
  | succ k ih =>
    intro f i st h
    by_cases hi : i < lines.length
    · have h0 : classify (lines.getD i []) = .other := by
        have h1 := h 0 (by omega)
        simpa using h1
      have e1 : f + (k + 1) = (f + k) + 1 := by omega
      rw [e1, ptGo_step_some lines (f + k) i st st hi (ptStep_of_other h0)]
      have e2 : i + (k + 1) = (i + 1) + k := by omega
      rw [e2]
      refine ih f (i + 1) st fun j hj => ?_
      have h2 := h (j + 1) (by omega)
      have e3 : i + (j + 1) = i + 1 + j := by omega
      rwa [e3] at h2
    · rw [ptGo_oob lines _ i st hi, ptGo_oob lines f (i + (k + 1)) st (by omega)]

/-- When the current section is gone and the backward scan finds nothing,
a parameter is inserted into the root properties (the fallback only fires
for indented parameters, but an unindented one also resolves to root, so
no indentation hypothesis is needed here). -/
theorem handleParam_root (lines : List (List Char)) (i : Nat) (st : PTState)
    (info : ParamInfo)
    (hcur : st.currentSection = none)
    (hctx : find_section_context lines i = none) :
    handleParam lines i st info =
      some { st with schema :=
        { properties := assocSet st.schema.properties info.name
            (.param (build_property_schema info (extract_description lines i)))
          required :=
            if info.required then some (st.schema.required.getD [] ++ [info.name])
            else st.schema.required } } := by
  unfold handleParam
  rw [hcur]
  simp only [determine_none, hctx]
  simp

/-- Claim C5 (amended): in a document consisting of one section
directive, neutral lines, a template close, neutral lines, a parameter
directive (with indented configuration, i.e. positive resolved indent)
and neutral continuation lines, the parameter is attached to the root
properties, not to the stale closed section, and the stale section keeps
its empty property mapping. -/
theorem C5_amended_single_section (secL closeL paramL : List Char)
    (mid1 mid2 rest : List (List Char)) (sname : List Char) (info : ParamInfo)
    (hsec : classify secL = .sectionD sname)
    (hclose : classify closeL = .templateClose)
    (hparam : classify paramL = .paramD info)
    (hmid1 : ∀ x ∈ mid1, classify x = .other)
    (hmid2 : ∀ x ∈ mid2, classify x = .other)
    (hrest : ∀ x ∈ rest, classify x = .other)
    (hindent : 0 < fpliGo rest)
    (hname : info.name ≠ sname) :
    parse_template_file (secL :: mid1 ++ closeL :: mid2 ++ paramL :: rest) =
      some { properties := [(sname, SchemaEntry.sect (mkSectionNode sname)),
               (info.name, SchemaEntry.param (build_property_schema info
                 (joinSpace (descPieces rest))))],
             required := if info.required then some [info.name] else none } := by
  have hlen : (secL :: mid1 ++ closeL :: mid2 ++ paramL :: rest).length =
      mid1.length + mid2.length + rest.length + 3 := by
    simp only [List.length_append, List.length_cons]
    omega
  -- the two driver states after the section directive and after the close
  have hst1 : openSection initState sname =
      { currentSection := some sname, sectionStack := [sname],
        schema := { properties := [(sname, SchemaEntry.sect (mkSectionNode sname))],
                    required := none } } := rfl
  have hst2 : popClose
      { currentSection := some sname, sectionStack := [sname],
        schema := { properties := [(sname, SchemaEntry.sect (mkSectionNode sname))],
                    required := none } } =
      { currentSection := none, sectionStack := [],
        schema := { properties := [(sname, SchemaEntry.sect (mkSectionNode sname))],
                    required := none } } := rfl
  -- line classification at each position of the document
  have hg0 : classify ((secL :: mid1 ++ closeL :: mid2 ++ paramL :: rest).getD 0 []) =
      .sectionD sname := hsec
  have hgmid1 : ∀ j, j < mid1.length →
      classify ((secL :: mid1 ++ closeL :: mid2 ++ paramL :: rest).getD (0 + 1 + j) []) =
        .other := by
    intro j hj
    have hc : (secL :: mid1 ++ closeL :: mid2 ++ paramL :: rest).getD (0 + 1 + j) [] =
        mid1.getD j [] := by
      rw [getD_append_lt _ _ (by simp only [List.length_append, List.length_cons]; omega)]
      rw [getD_append_lt _ _ (by simp only [List.length_cons]; omega)]
      have e : 0 + 1 + j = j + 1 := by omega
      rw [e, List.getD_cons_succ]
    rw [hc]
    exact hmid1 _ (getD_mem_of_lt hj)
  have hgclose :
      classify ((secL :: mid1 ++ closeL :: mid2 ++ paramL :: rest).getD
        (0 + 1 + mid1.length) []) = .templateClose := by
    have hc : (secL :: mid1 ++ closeL :: mid2 ++ paramL :: rest).getD
        (0 + 1 + mid1.length) [] = closeL := by
      rw [getD_append_lt _ _ (by simp only [List.length_append, List.length_cons]; omega)]
      have e : 0 + 1 + mid1.length = (secL :: mid1).length + 0 := by
        simp only [List.length_cons]; omega
      rw [e, getD_append_add]
      rfl
    rw [hc]
    exact hclose
  have hgmid2 : ∀ j, j < mid2.length →
      classify ((secL :: mid1 ++ closeL :: mid2 ++ paramL :: rest).getD
        (0 + 1 + mid1.length + 1 + j) []) = .other := by
    intro j hj
    have hc : (secL :: mid1 ++ closeL :: mid2 ++ paramL :: rest).getD
        (0 + 1 + mid1.length + 1 + j) [] = mid2.getD j [] := by
      rw [getD_append_lt _ _ (by simp only [List.length_append, List.length_cons]; omega)]
      have e : 0 + 1 + mid1.length + 1 + j = (secL :: mid1).length + (j + 1) := by
        simp only [List.length_cons]; omega
      rw [e, getD_append_add, List.getD_cons_succ]
    rw [hc]
    exact hmid2 _ (getD_mem_of_lt hj)
  have hgparam :
      classify ((secL :: mid1 ++ closeL :: mid2 ++ paramL :: rest).getD
        (0 + 1 + mid1.length + 1 + mid2.length) []) = .paramD info := by
    have hc : (secL :: mid1 ++ closeL :: mid2 ++ paramL :: rest).getD
        (0 + 1 + mid1.length + 1 + mid2.length) [] = paramL := by
      have e : 0 + 1 + mid1.length + 1 + mid2.length =
          ((secL :: mid1) ++ (closeL :: mid2)).length + 0 := by
        simp only [List.length_append, List.length_cons]; omega
      rw [e, getD_append_add]
      rfl
    rw [hc]
    exact hparam
  have hgrest : ∀ j, j < rest.length →
      classify ((secL :: mid1 ++ closeL :: mid2 ++ paramL :: rest).getD
        (0 + 1 + mid1.length + 1 + mid2.length + 1 + j) []) = .other := by
    intro j hj
    have hc : (secL :: mid1 ++ closeL :: mid2 ++ paramL :: rest).getD
        (0 + 1 + mid1.length + 1 + mid2.length + 1 + j) [] = rest.getD j [] := by
      have e : 0 + 1 + mid1.length + 1 + mid2.length + 1 + j =
          ((secL :: mid1) ++ (closeL :: mid2)).length + (j + 1) := by
        simp only [List.length_append, List.length_cons]; omega
      rw [e, getD_append_add, List.getD_cons_succ]
    rw [hc]
    exact hrest _ (getD_mem_of_lt hj)
  -- the scans performed while handling the parameter directive
  have htake : (secL :: mid1 ++ closeL :: mid2 ++ paramL :: rest).take
      (0 + 1 + mid1.length + 1 + mid2.length) = (secL :: mid1) ++ (closeL :: mid2) := by
    have e : 0 + 1 + mid1.length + 1 + mid2.length =
        ((secL :: mid1) ++ (closeL :: mid2)).length := by
      simp only [List.length_append, List.length_cons]; omega
    rw [e, List.take_left]
  have hctx : find_section_context (secL :: mid1 ++ closeL :: mid2 ++ paramL :: rest)
      (0 + 1 + mid1.length + 1 + mid2.length) = none := by
    unfold find_section_context
    rw [htake, List.reverse_append, List.reverse_cons, List.append_assoc]
    rw [scanBack_append_neutral (fun x hx => by
      have hox := hmid2 x (List.mem_reverse.mp hx)
      exact ⟨fun n hq => (by rw [hox] at hq; cases hq),
             fun hq => (by rw [hox] at hq; cases hq)⟩)]
    exact scanBack_cons_close hclose
  have hdrop : (secL :: mid1 ++ closeL :: mid2 ++ paramL :: rest).drop
      (0 + 1 + mid1.length + 1 + mid2.length + 1) = rest := by
    have e : 0 + 1 + mid1.length + 1 + mid2.length + 1 =
        ((secL :: mid1) ++ (closeL :: mid2)).length + 1 := by
      simp only [List.length_append, List.length_cons]; omega
    rw [e, ← List.drop_drop, List.drop_left]
    rfl
  have hdesc : extract_description (secL :: mid1 ++ closeL :: mid2 ++ paramL :: rest)
      (0 + 1 + mid1.length + 1 + mid2.length) = joinSpace (descPieces rest) := by
    unfold extract_description
    rw [hdrop]
  -- the parameter step
  have hstep5 : ptStep (secL :: mid1 ++ closeL :: mid2 ++ paramL :: rest)
      (0 + 1 + mid1.length + 1 + mid2.length)
      { currentSection := none, sectionStack := [],
        schema := { properties := [(sname, SchemaEntry.sect (mkSectionNode sname))],
                    required := none } } =
      some { currentSection := none, sectionStack := [],
             schema := { properties := [(sname, SchemaEntry.sect (mkSectionNode sname)),
                           (info.name, SchemaEntry.param (build_property_schema info
                             (joinSpace (descPieces rest))))],
                         required := if info.required then some [info.name] else none } } := by
    rw [ptStep_of_param hgparam]
    rw [handleParam_root _ _ _ info rfl hctx]
    rw [hdesc]
    have hs2 : sname ≠ info.name := Ne.symm hname
    simp [assocSet, hs2]
  -- chain the driver through the document
  have hchain : ptGo (secL :: mid1 ++ closeL :: mid2 ++ paramL :: rest)
      (mid1.length + mid2.length + rest.length + 3) 0 initState =
      some { currentSection := none, sectionStack := [],
             schema := { properties := [(sname, SchemaEntry.sect (mkSectionNode sname)),
                           (info.name, SchemaEntry.param (build_property_schema info
                             (joinSpace (descPieces rest))))],
                         required := if info.required then some [info.name] else none } } := by
    have e0 : mid1.length + mid2.length + rest.length + 3 =
        (mid2.length + rest.length + 2 + mid1.length) + 1 := by omega
    rw [e0]
    rw [ptGo_step_some _ _ 0 _ _
      (by simp only [List.length_append, List.length_cons]; omega)
      (ptStep_of_section hg0)]
    rw [hst1]
    rw [ptGo_skip_others _ mid1.length (mid2.length + rest.length + 2) (0 + 1) _ hgmid1]
    have e1 : mid2.length + rest.length + 2 = (rest.length + 1 + mid2.length) + 1 := by
      omega
    rw [e1]
    rw [ptGo_step_some _ _ (0 + 1 + mid1.length) _ _
      (by simp only [List.length_append, List.length_cons]; omega)
      (ptStep_of_close hgclose)]
    rw [hst2]
    rw [ptGo_skip_others _ mid2.length (rest.length + 1) (0 + 1 + mid1.length + 1) _ hgmid2]
    rw [ptGo_step_some _ rest.length (0 + 1 + mid1.length + 1 + mid2.length) _ _
      (by simp only [List.length_append, List.length_cons]; omega) hstep5]
    have e2 : rest.length = 0 + rest.length := by omega
    rw [e2]
    rw [ptGo_skip_others _ rest.length 0 (0 + 1 + mid1.length + 1 + mid2.length + 1) _ hgrest]
    rfl
  unfold parse_template_file
  rw [hlen, hchain]
  rfl

/-- Witness for C5 (amended): a section `logs`, its close marker, then an
indented parameter `path` — the parameter lands at root and the stale
section stays empty. -/
theorem C5_witness :
    parse_template_file
      ["## @param logs - custom object - optional".toList,
       "\x7b\x7b end \x7d\x7d".toList,
       "## @param path - string - optional".toList,
       "  path: /var/log".toList] =
      some { properties := [("logs".toList, SchemaEntry.sect (mkSectionNode ("logs".toList))),
               ("path".toList, SchemaEntry.param
                 { type := "string".toList, description := [], default := none,
                   items := none, addProps := false })],
             required := none } :=
  C5_amended_single_section
    ("## @param logs - custom object - optional".toList)
    ("\x7b\x7b end \x7d\x7d".toList)
    ("## @param path - string - optional".toList)
    [] [] ["  path: /var/log".toList]
    ("logs".toList)
    { name := "path".toList, type := "string".toList, required := false, default := none }
    rfl rfl rfl (by simp) (by simp) (by decide) (by decide) (by decide)

/-- Claim C5 is false as stated for nested sections: with two open
sections and one close marker between the inner section directive and the
indented parameter, the parameter attaches to the remaining outer
section, not to the root properties. -/
theorem C5_counterexample :
    rootHasKey (parse_template_file
      ["## @param outer - custom object - optional".toList,
       "## @param inner - custom object - optional".toList,
       "\x7b\x7b end \x7d\x7d".toList,
       "## @param path - string - optional".toList,
       "    path: x".toList]) ("path".toList) = false ∧
    sectionHasKey (parse_template_file
      ["## @param outer - custom object - optional".toList,
       "## @param inner - custom object - optional".toList,
       "\x7b\x7b end \x7d\x7d".toList,
       "## @param path - string - optional".toList,
       "    path: x".toList]) ("outer".toList) ("path".toList) = true :=
  ⟨rfl, rfl⟩

end DDSchema
